import Mathlib

/-!
Shallow embedding of `src/ch06/01_dqn_pong.py`, a single-file DQN training
script, together with proofs of its specified properties.

Conventions: Python floats become `ℚ` (all arithmetic the claims touch is
exact), numpy arrays become lists (of lists), neural networks become abstract
functions from states to per-action value lists, and the script's module-level
constants keep their names.
-/

/-- `GAMMA = 0.99`. -/
def GAMMA : ℚ := 99 / 100

/-- `BATCH_SIZE = 32`. -/
def BATCH_SIZE : Nat := 32

/-- `REPLAY_SIZE = 20000`. -/
def REPLAY_SIZE : Nat := 20000

/-- `SYNC_TARGET_FRAMES = 10000`. -/
def SYNC_TARGET_FRAMES : Nat := 10000

/-- `REPLAY_START_SIZE = 5000`. -/
def REPLAY_START_SIZE : Nat := 5000

/-! ## ExperienceBuffer -/

/-- `ExperienceBuffer`: a capacity plus a `collections.deque` of entries,
oldest first.  The element type is abstract: the claims about the buffer do
not depend on what a transition contains. -/
structure ExperienceBuffer (α : Type) where
  capacity : Nat
  buffer : List α
  deriving Repr, DecidableEq

/-- The body of `ExperienceBuffer.append`'s `while` loop:
`while len(self.buffer) > self.capacity: self.buffer.popleft()`. -/
def popExcess (cap : Nat) : List α → List α
  | [] => []
  | a :: l => if (a :: l).length > cap then popExcess cap l else a :: l

/-- `ExperienceBuffer.append`: push on the right, then pop from the left
while over capacity. -/
def ExperienceBuffer.append (b : ExperienceBuffer α) (e : α) :
    ExperienceBuffer α :=
  { b with buffer := popExcess b.capacity (b.buffer ++ [e]) }

/-- `len(self.buffer)`. -/
def ExperienceBuffer.size (b : ExperienceBuffer α) : Nat := b.buffer.length

/-- An empty buffer with the given capacity, as built by
`ExperienceBuffer(capacity=...)`. -/
def ExperienceBuffer.mk0 (cap : Nat) (α : Type) : ExperienceBuffer α :=
  ⟨cap, []⟩

/-- Appending a whole list of elements in order. -/
def ExperienceBuffer.appendAll (b : ExperienceBuffer α) (es : List α) :
    ExperienceBuffer α :=
  es.foldl ExperienceBuffer.append b

theorem popExcess_eq_drop (cap : Nat) (l : List α) :
    popExcess cap l = l.drop (l.length - cap) := by
  induction l with
  | nil => simp [popExcess]
  | cons a t ih =>
      simp only [popExcess, List.length_cons]
      by_cases h : t.length + 1 > cap
      · rw [if_pos h, ih]
        have h1 : t.length + 1 - cap = (t.length - cap) + 1 := by omega
        rw [h1]
        rfl
      · rw [if_neg h]
        have h2 : t.length + 1 - cap = 0 := by omega
        rw [h2]
        rfl

theorem appendAll_buffer (cap : Nat) (init es : List α)
    (hinit : init.length ≤ cap) :
    (ExperienceBuffer.appendAll ⟨cap, init⟩ es).buffer
      = (init ++ es).drop ((init ++ es).length - cap) := by
  induction es generalizing init with
  | nil =>
      have h0 : init.length - cap = 0 := by omega
      simp [ExperienceBuffer.appendAll, h0]
  | cons e t ih =>
      have step : ExperienceBuffer.append (⟨cap, init⟩ : ExperienceBuffer α) e
          = ⟨cap, (init ++ [e]).drop ((init ++ [e]).length - cap)⟩ := by
        simp [ExperienceBuffer.append, popExcess_eq_drop]
      show (ExperienceBuffer.appendAll
          (ExperienceBuffer.append ⟨cap, init⟩ e) t).buffer = _
      rw [step, ih _ (by
        simp only [List.length_drop, List.length_append, List.length_cons,
          List.length_nil]
        omega)]
      rw [← List.drop_append_of_le_length (by
        simp only [List.length_drop, List.length_append, List.length_cons,
          List.length_nil]
        omega)]
      rw [List.drop_drop]
      congr 1
      · simp
        omega
      · simp

/-! ## ExperienceBuffer.sample

`np.random.choice(n, k, replace=False)` draws `k` pairwise-distinct indices
below `n`, or raises `ValueError` when `k > n`.  We model the RNG state by the
permutation `r` of `List.range n` the generator would produce, and the draw as
its first `k` entries; failure becomes `none`. -/

/-- `np.random.choice(n, k, replace=False)` with the generator's underlying
permutation `r` of `0..n-1` made explicit: `none` models the `ValueError`
raised when `k > n`. -/
def npChoice (n k : Nat) (r : List Nat) : Option (List Nat) :=
  if k ≤ n then some (r.take k) else none

/-- `ExperienceBuffer.sample`:
`indices = np.random.choice(len(self.buffer), batch_size, replace=False)`
followed by `[self.buffer[idx] for idx in indices]`.  `dflt` stands for the
(never reached, under a valid permutation) out-of-range lookup. -/
def ExperienceBuffer.sample (b : ExperienceBuffer α) (dflt : α)
    (batch_size : Nat) (r : List Nat) : Option (List α) :=
  (npChoice b.buffer.length batch_size r).map
    (fun indices => indices.map (fun idx => b.buffer.getD idx dflt))

/-! ## Transitions and loss computation -/

/-- `Experience = namedtuple('Experience', ['state', 'action', 'reward',
'done', 'new_state'])`.  States stay abstract (`S`); rewards are exact
rationals. -/
structure Experience (S : Type) where
  state : S
  action : Nat
  reward : ℚ
  done : Bool
  new_state : S
  deriving Repr, DecidableEq

/-- `np.max` over a vector.  NumPy raises on an empty array; the claims only
use it on Q-value rows, which are nonempty (`n_actions ≥ 1`), so the `[]` case
is junk. -/
def npMax : List ℚ → ℚ
  | [] => 0
  | a :: t => t.foldl max a

/-- Sum of squared differences between two equally-long rows. -/
def sqDiffRow (p t : List ℚ) : ℚ :=
  ((p.zip t).map (fun q => (q.1 - q.2) ^ 2)).sum

/-- Number of elements of a matrix (list of rows). -/
def numel (m : List (List ℚ)) : Nat := (m.map List.length).sum

/-- `nn.MSELoss()(pred, target)`: mean of squared differences over ALL
elements of the two matrices (default `reduction='mean'`). -/
def mseLoss (pred target : List (List ℚ)) : ℚ :=
  ((pred.zip target).map (fun q => sqDiffRow q.1 q.2)).sum / (numel pred : ℚ)

/-- `calc_loss(batch, net)`: `q_v = net(states)`; `y` is a copy of `q_v` in
which, for each sample, the entry at the taken action's index is overwritten
by `R = reward` (plus `GAMMA * np.max(net(new_state))` when not done, the same
`net` computing both); the result is `MSELoss(q_v, y_v)`. -/
def calc_loss (batch : List (Experience S)) (net : S → List ℚ) : ℚ :=
  let q := batch.map (fun exp => net exp.state)
  let y := batch.map (fun exp =>
    let new_q := net exp.new_state
    let R := exp.reward
    let R := if exp.done then R else R + GAMMA * npMax new_q
    (net exp.state).set exp.action R)
  mseLoss q y

/-- Modelled from the spec: the loss the spec describes in its own words —
"the mean squared error, over the batch, between each sample's current
estimate `Q(state)[action]` at the taken action's index and a per-sample
target scalar" equal to `reward` when done, else
`reward + gamma * max_a Q(next_state)[a]`, the same network used throughout.
Kept separate from `calc_loss` (the code's definition) for comparison. -/
def specBatchMSE (batch : List (Experience S)) (net : S → List ℚ) : ℚ :=
  (batch.map (fun exp =>
    ((net exp.state).getD exp.action 0 -
      (if exp.done then exp.reward
       else exp.reward + GAMMA * npMax (net exp.new_state))) ^ 2)).sum
    / (batch.length : ℚ)

theorem sqDiffRow_self (l : List ℚ) : sqDiffRow l l = 0 := by
  induction l with
  | nil => rfl
  | cons a t ih => simp [sqDiffRow, List.zip_cons_cons] at *; exact ih

theorem sqDiffRow_cons (a b : ℚ) (p t : List ℚ) :
    sqDiffRow (a :: p) (b :: t) = (a - b) ^ 2 + sqDiffRow p t := by
  simp [sqDiffRow, List.zip_cons_cons]

theorem sqDiffRow_set (row : List ℚ) (a : Nat) (v : ℚ) (h : a < row.length) :
    sqDiffRow row (row.set a v) = (row.getD a 0 - v) ^ 2 := by
  induction row generalizing a with
  | nil => simp at h
  | cons x t ih =>
      cases a with
      | zero =>
          rw [List.set_cons_zero, sqDiffRow_cons, sqDiffRow_self]
          simp
      | succ a =>
          have ha : a < t.length := by simpa using h
          rw [List.set_cons_succ, sqDiffRow_cons, ih a ha]
          simp

theorem numel_map_const (l : List β) (f : β → List ℚ) (A : Nat)
    (h : ∀ x ∈ l, (f x).length = A) :
    numel (l.map f) = l.length * A := by
  induction l with
  | nil => simp [numel]
  | cons x t ih =>
      have ht := ih (fun y hy => h y (by simp [hy]))
      simp only [numel, List.map_cons, List.map_map, List.sum_cons,
        List.length_cons] at *
      rw [h x (by simp), ht]
      ring

theorem calc_loss_eq (batch : List (Experience S)) (net : S → List ℚ)
    (A : Nat)
    (hlen : ∀ exp ∈ batch, (net exp.state).length = A)
    (hact : ∀ exp ∈ batch, exp.action < A) :
    calc_loss batch net =
      (batch.map (fun exp =>
        ((net exp.state).getD exp.action 0 -
          (if exp.done then exp.reward
           else exp.reward + GAMMA * npMax (net exp.new_state))) ^ 2)).sum
      / ((batch.length * A : ℕ) : ℚ) := by
  unfold calc_loss mseLoss
  dsimp only
  rw [List.zip_map', List.map_map, numel_map_const _ _ A hlen]
  congr 1
  refine congrArg List.sum (List.map_congr_left ?_)
  intro exp hexp
  have hb : exp.action < (net exp.state).length := by
    rw [hlen exp hexp]; exact hact exp hexp
  simp only [Function.comp]
  rw [sqDiffRow_set _ _ _ hb]

/-! ## Epsilon schedule -/

/-- `epsilon = max(0.1, 1.0 - frame_idx / 10**6)`, recomputed each
learning-loop iteration. -/
def epsilonAt (frame_idx : Nat) : ℚ :=
  max (1 / 10) (1 - (frame_idx : ℚ) / 10 ^ 6)

/-! ## Claim theorems (buffer, sampling, loss, epsilon) -/

/-- **C2**: for every sequence of appends into an `ExperienceBuffer` of
capacity `C ≥ 1`, the size never exceeds `C`, and once more than `C`
transitions have been appended the buffer holds exactly the most recent `C`
appended transitions in insertion order (FIFO eviction of the oldest). -/
theorem c2_buffer_capacity_fifo (α : Type) (C : Nat) (hC : 1 ≤ C)
    (es : List α) :
    (ExperienceBuffer.appendAll (ExperienceBuffer.mk0 C α) es).size ≤ C ∧
    (C < es.length →
      (ExperienceBuffer.appendAll (ExperienceBuffer.mk0 C α) es).buffer
        = es.drop (es.length - C) ∧
      (es.drop (es.length - C)).length = C) := by
  have hb : (ExperienceBuffer.appendAll (ExperienceBuffer.mk0 C α) es).buffer
      = es.drop (es.length - C) := by
    simpa [ExperienceBuffer.mk0] using appendAll_buffer C [] es (by simp)
  constructor
  · simp only [ExperienceBuffer.size, hb, List.length_drop]
    omega
  · intro h
    refine ⟨hb, ?_⟩
    simp only [List.length_drop]
    omega

/-- Witness for C2: capacity 3, appends `[10, 20, 30, 40]`; the buffer ends
as `[20, 30, 40]`. -/
theorem c2_buffer_capacity_fifo_witness :
    (ExperienceBuffer.appendAll (ExperienceBuffer.mk0 3 Nat)
        [10, 20, 30, 40]).size ≤ 3 ∧
    (3 < ([10, 20, 30, 40] : List Nat).length →
      (ExperienceBuffer.appendAll (ExperienceBuffer.mk0 3 Nat)
          [10, 20, 30, 40]).buffer
        = ([10, 20, 30, 40] : List Nat).drop
            (([10, 20, 30, 40] : List Nat).length - 3) ∧
      (([10, 20, 30, 40] : List Nat).drop
          (([10, 20, 30, 40] : List Nat).length - 3)).length = 3) :=
  c2_buffer_capacity_fifo Nat 3 (by decide) [10, 20, 30, 40]

/-- **C3**: under a valid RNG permutation `r` of the index range, `sample k`
on a buffer of size ≥ k returns exactly `k` entries drawn at pairwise-distinct
in-range positions, each a member of the current contents; on a buffer of
size < k (e.g. size 3, k = 4) it fails with `np.random.choice`'s underflow
`ValueError`, modelled as `none`. -/
theorem c3_sample_spec (α : Type) (b : ExperienceBuffer α) (dflt : α)
    (k : Nat) (r : List Nat) (hr : r.Perm (List.range b.buffer.length)) :
    (k ≤ b.buffer.length →
      ∃ l, b.sample dflt k r = some l ∧ l.length = k ∧
        (∀ x ∈ l, x ∈ b.buffer) ∧
        ∃ idxs : List Nat, idxs.Nodup ∧ (∀ i ∈ idxs, i < b.buffer.length) ∧
          l = idxs.map (fun i => b.buffer.getD i dflt)) ∧
    (b.buffer.length < k → b.sample dflt k r = none) := by
  have hrange : ∀ i ∈ r, i < b.buffer.length := by
    intro i hi
    have : i ∈ List.range b.buffer.length := hr.mem_iff.mp hi
    simpa using this
  constructor
  · intro hk
    refine ⟨(r.take k).map (fun i => b.buffer.getD i dflt), ?_, ?_, ?_, ?_⟩
    · simp [ExperienceBuffer.sample, npChoice, hk]
    · rw [List.length_map, List.length_take]
      have : r.length = b.buffer.length := by simpa using hr.length_eq
      omega
    · intro x hx
      obtain ⟨i, hi, rfl⟩ := List.mem_map.mp hx
      have hilt : i < b.buffer.length := hrange i (List.mem_of_mem_take hi)
      rw [List.getD_eq_getElem _ _ hilt]
      exact List.getElem_mem hilt
    · refine ⟨r.take k, ?_, ?_, rfl⟩
      · exact (List.take_sublist k r).nodup
          (hr.nodup_iff.mpr (List.nodup_range _))
      · exact fun i hi => hrange i (List.mem_of_mem_take hi)
  · intro hk
    have : ¬ k ≤ b.buffer.length := by omega
    simp [ExperienceBuffer.sample, npChoice, this]

/-- Witness for C3: buffer `[5, 6, 7]` (capacity 10), `k = 3`, identity
permutation. -/
theorem c3_sample_spec_witness :
    (3 ≤ (⟨10, [5, 6, 7]⟩ : ExperienceBuffer Nat).buffer.length →
      ∃ l, (⟨10, [5, 6, 7]⟩ : ExperienceBuffer Nat).sample 0 3
            (List.range 3) = some l ∧ l.length = 3 ∧
        (∀ x ∈ l, x ∈ (⟨10, [5, 6, 7]⟩ : ExperienceBuffer Nat).buffer) ∧
        ∃ idxs : List Nat, idxs.Nodup ∧
          (∀ i ∈ idxs,
            i < (⟨10, [5, 6, 7]⟩ : ExperienceBuffer Nat).buffer.length) ∧
          l = idxs.map (fun i =>
            (⟨10, [5, 6, 7]⟩ : ExperienceBuffer Nat).buffer.getD i 0)) ∧
    ((⟨10, [5, 6, 7]⟩ : ExperienceBuffer Nat).buffer.length < 3 →
      (⟨10, [5, 6, 7]⟩ : ExperienceBuffer Nat).sample 0 3
          (List.range 3) = none) :=
  c3_sample_spec Nat ⟨10, [5, 6, 7]⟩ 0 3 (List.range 3) (List.Perm.refl _)

/-- A one-sample batch over a two-action network, separating `calc_loss` from
the per-batch mean squared error the spec describes. -/
def c4Batch : List (Experience Unit) := [⟨(), 0, 0, true, ()⟩]

/-- A two-action Q-network constant in its (unit) input. -/
def c4Net : Unit → List ℚ := fun _ => [1, 0]

/-- **C4, counterexample**: on a one-sample batch with two actions,
`calc_loss` returns `1/2` — it averages over all `batch × action` matrix
entries — while the mean squared error over the batch between
`Q(state)[action]` and the per-sample target, as the claim states it, is `1`. -/
theorem c4_counterexample :
    calc_loss c4Batch c4Net = 1 / 2 ∧ specBatchMSE c4Batch c4Net = 1 ∧
      calc_loss c4Batch c4Net ≠ specBatchMSE c4Batch c4Net := by
  refine ⟨?_, ?_, ?_⟩ <;>
    norm_num [calc_loss, specBatchMSE, mseLoss, sqDiffRow, numel, npMax,
      c4Batch, c4Net, List.zip_cons_cons]

/-- **C4, amended**: when every current-estimate row has length `n_actions`
and every taken action is in range, `calc_loss` equals `1/n_actions` times
the mean squared error over the batch between `Q(state)[action]` and the
per-sample target scalar — `reward` exactly when `done` (independent of any
next-state estimate), else `reward + GAMMA * max_a Q(new_state)[a]` — with
the same network `net` computing both the current estimates and the
next-state values. -/
theorem c4_loss_targets (batch : List (Experience S)) (net : S → List ℚ)
    (A : Nat) (hlen : ∀ exp ∈ batch, (net exp.state).length = A)
    (hact : ∀ exp ∈ batch, exp.action < A) :
    calc_loss batch net = specBatchMSE batch net / (A : ℚ) := by
  rw [calc_loss_eq batch net A hlen hact]
  unfold specBatchMSE
  rw [div_div]
  push_cast
  rfl

/-- Witness for C4 (amended) on a two-sample, two-action batch. -/
theorem c4_loss_targets_witness :
    calc_loss
        [(⟨(), 0, 1, true, ()⟩ : Experience Unit), ⟨(), 1, 2, false, ()⟩]
        c4Net
      = specBatchMSE
          [(⟨(), 0, 1, true, ()⟩ : Experience Unit), ⟨(), 1, 2, false, ()⟩]
          c4Net / ((2 : ℕ) : ℚ) :=
  c4_loss_targets _ c4Net 2 (by decide) (by decide)

/-- **C5**: `epsilonAt` is non-increasing in the step count, bounded below by
the floor `0.1`, and equals exactly `1` at step 0. -/
theorem c5_epsilon_schedule :
    (∀ m n : Nat, m ≤ n → epsilonAt n ≤ epsilonAt m) ∧
    (∀ n : Nat, 1 / 10 ≤ epsilonAt n) ∧ epsilonAt 0 = 1 := by
  refine ⟨?_, ?_, ?_⟩
  · intro m n hmn
    unfold epsilonAt
    apply max_le_max le_rfl
    have hc : (m : ℚ) ≤ n := by exact_mod_cast hmn
    gcongr
  · intro n
    exact le_max_left _ _
  · unfold epsilonAt
    norm_num

/-- Witness for C5: the schedule at concrete steps. -/
theorem c5_epsilon_schedule_witness :
    epsilonAt 7 ≤ epsilonAt 3 ∧ 1 / 10 ≤ epsilonAt 5 :=
  ⟨c5_epsilon_schedule.1 3 7 (by norm_num), c5_epsilon_schedule.2.1 5⟩

/-! ## TargetNet -/

/-- `TargetNet`: the online model and its periodically-synced copy
(`copy.deepcopy(model)` at construction). -/
structure TargetNet (P : Type) where
  model : P
  target_model : P
  deriving Repr, DecidableEq

/-- `TargetNet.sync`:
`self.target_model.load_state_dict(self.model.state_dict())` — copy the
online parameters into the target parameters wholesale. -/
def TargetNet.sync (t : TargetNet P) : TargetNet P :=
  { t with target_model := t.model }

/-- **C8**: `sync` is idempotent — with no intervening update of `model`, the
target parameters after a second consecutive `sync` are identical to those
after the first, and both equal the value network's parameters. -/
theorem c8_sync_idempotent (P : Type) (t : TargetNet P) :
    t.sync.sync = t.sync ∧
    t.sync.sync.target_model = t.sync.target_model ∧
    t.sync.target_model = t.model ∧
    t.sync.sync.target_model = t.model :=
  ⟨rfl, rfl, rfl, rfl⟩

/-! ## The LEARNING training loop -/

/-- A collaborator use recorded during one LEARNING iteration: which
parameter set is handed to `agent.play_step` for action selection, which is
handed to `calc_loss`, and target syncs. -/
inductive DqnEvent (P : Type) where
  | play (netUsed : P)
  | loss (netUsed : P)
  | sync
  deriving Repr, DecidableEq

/-- `true` exactly on `play` events. -/
def DqnEvent.isPlay : DqnEvent P → Bool
  | .play _ => true
  | _ => false

/-- State threaded through the `while True` LEARNING loop: the online
network's parameters `net`, the target copy `target_model`, the gradient
slots of `net` (written by `zero_grad` / `backward`), the replay buffer, the
exploration rate and the frame counter. -/
structure TrainState (P G E : Type) where
  net : P
  target_model : P
  grads : G
  exp_buffer : ExperienceBuffer E
  epsilon : ℚ
  frame_idx : Nat
  deriving Repr, DecidableEq

/-- One iteration of the LEARNING `while True` loop, with the effectful
collaborators abstracted: `envExp` is the transition this iteration's single
`agent.play_step` call appends to the buffer, `choose` is the batch
`ExperienceBuffer.sample` returns, and `gradOf p batch` is the gradient that
`loss_v.backward()` writes into the (just-zeroed) gradient slots of the
parameters `p` the loss was computed on.  The iteration:
* one environment step via the agent, action selected with
  `tgt_net.target_model`;
* if `len(exp_buffer) >= BATCH_SIZE`: sample, `optimizer.zero_grad()`,
  `calc_loss(batch, net)`, `loss_v.backward()` — the source calls no
  `optimizer.step()`, so the parameters themselves are untouched;
* `epsilon = max(0.1, 1.0 - frame_idx / 10**6)`;
* if `frame_idx % SYNC_TARGET_FRAMES == 0`: `tgt_net.sync()`;
* `frame_idx += 1`.
Returns the successor state and the trace of collaborator uses. -/
def learnIter (gradOf : P → List E → G) (choose : ExperienceBuffer E → List E)
    (envExp : E) (s : TrainState P G E) :
    TrainState P G E × List (DqnEvent P) :=
  let buf := s.exp_buffer.append envExp
  let learn := BATCH_SIZE ≤ buf.size
  let grads := if learn then gradOf s.net (choose buf) else s.grads
  let eps := epsilonAt s.frame_idx
  let tgt := if s.frame_idx % SYNC_TARGET_FRAMES = 0 then s.net
             else s.target_model
  (⟨s.net, tgt, grads, buf, eps, s.frame_idx + 1⟩,
    DqnEvent.play s.target_model ::
      ((if learn then [DqnEvent.loss s.net] else []) ++
        (if s.frame_idx % SYNC_TARGET_FRAMES = 0 then [DqnEvent.sync]
         else [])))

/-- **C6**: during LEARNING, the parameters handed to `agent.play_step` for
epsilon-greedy action selection are always the target network's current
snapshot, the parameters handed to `calc_loss` are always the online `net`,
and never the other way around. -/
theorem c6_action_by_target_loss_by_online (P G E : Type)
    (gradOf : P → List E → G) (choose : ExperienceBuffer E → List E)
    (envExp : E) (s : TrainState P G E) :
    (∀ p, DqnEvent.play p ∈ (learnIter gradOf choose envExp s).2 →
      p = s.target_model) ∧
    (∀ p, DqnEvent.loss p ∈ (learnIter gradOf choose envExp s).2 →
      p = s.net) := by
  by_cases hl : BATCH_SIZE ≤ (s.exp_buffer.append envExp).size <;>
    by_cases hs : s.frame_idx % SYNC_TARGET_FRAMES = 0 <;>
      refine ⟨fun p hp => ?_, fun p hp => ?_⟩ <;>
        simp [learnIter, hl, hs] at hp <;> exact hp

/-- Witness for C6: a concrete LEARNING iteration. -/
theorem c6_action_by_target_loss_by_online_witness :
    (∀ p, DqnEvent.play p ∈
        (learnIter (fun (_ : Nat) (_ : List Nat) => ()) (fun _ => []) 99
          ⟨1, 2, (), ⟨20000, List.range 40⟩, 1, 0⟩).2 → p = 2) ∧
    (∀ p, DqnEvent.loss p ∈
        (learnIter (fun (_ : Nat) (_ : List Nat) => ()) (fun _ => []) 99
          ⟨1, 2, (), ⟨20000, List.range 40⟩, 1, 0⟩).2 → p = 1) :=
  c6_action_by_target_loss_by_online Nat Unit Nat _ _ 99
    ⟨1, 2, (), ⟨20000, List.range 40⟩, 1, 0⟩

/-- **C1** (code evidence): in a LEARNING iteration whose buffer holds at
least `BATCH_SIZE` transitions after the single environment step, the loop
samples a batch and `backward()` writes the loss gradients, but the
value-network parameters after the iteration are identical to those before —
the source never calls `optimizer.step()`, so no gradient update of the
parameters happens.  The rest of the claimed structure does hold: exactly one
environment step per iteration, and the target sync fires exactly when
`frame_idx % SYNC_TARGET_FRAMES = 0`, frame 0 included. -/
theorem c1_no_optimizer_step (P G E : Type)
    (gradOf : P → List E → G) (choose : ExperienceBuffer E → List E)
    (envExp : E) (s : TrainState P G E)
    (hlearn : BATCH_SIZE ≤ (s.exp_buffer.append envExp).size) :
    (learnIter gradOf choose envExp s).1.net = s.net ∧
    (learnIter gradOf choose envExp s).1.grads
      = gradOf s.net (choose (s.exp_buffer.append envExp)) ∧
    ((learnIter gradOf choose envExp s).2.filter DqnEvent.isPlay).length
      = 1 ∧
    (DqnEvent.sync ∈ (learnIter gradOf choose envExp s).2 ↔
      s.frame_idx % SYNC_TARGET_FRAMES = 0) := by
  by_cases hs : s.frame_idx % SYNC_TARGET_FRAMES = 0 <;>
    simp [learnIter, hlearn, hs, DqnEvent.isPlay]

/-- Witness for C1's code evidence: a concrete iteration with 40 buffered
transitions. -/
theorem c1_no_optimizer_step_witness :
    (learnIter (fun (_ : Nat) (_ : List Nat) => ()) (fun _ => [0]) 99
        ⟨1, 2, (), ⟨20000, List.range 40⟩, 1, 0⟩).1.net = 1 ∧
    (learnIter (fun (_ : Nat) (_ : List Nat) => ()) (fun _ => [0]) 99
        ⟨1, 2, (), ⟨20000, List.range 40⟩, 1, 0⟩).1.grads = () ∧
    ((learnIter (fun (_ : Nat) (_ : List Nat) => ()) (fun _ => [0]) 99
        ⟨1, 2, (), ⟨20000, List.range 40⟩, 1, 0⟩).2.filter
          DqnEvent.isPlay).length = 1 ∧
    (DqnEvent.sync ∈
        (learnIter (fun (_ : Nat) (_ : List Nat) => ()) (fun _ => [0]) 99
          ⟨1, 2, (), ⟨20000, List.range 40⟩, 1, 0⟩).2 ↔
      0 % SYNC_TARGET_FRAMES = 0) :=
  c1_no_optimizer_step Nat Unit Nat _ _ 99
    ⟨1, 2, (), ⟨20000, List.range 40⟩, 1, 0⟩ (by decide)

/-! ## Agent.play_step action selection -/

/-- First index of the maximal entry of a Q-value row —
`_, act_v = torch.max(q_vals_v, dim=1)` returns the first occurrence among
ties. -/
def argmaxIdx (l : List ℚ) : Nat :=
  (List.range l.length).foldl
    (fun best i => if l.getD best 0 < l.getD i 0 then i else best) 0

/-- `Agent.play_step`'s action selection: `r` is the draw of
`np.random.random()` (uniform on `[0, 1)`); `net = none` models the warmup
calls `agent.play_step(None, epsilon=1.0)`; a `none` result models the crash
that evaluating `None` as a network would raise in the greedy branch. -/
def playStepAction {S : Type} (net : Option (S → List ℚ)) (state : S)
    (epsilon r : ℚ) (randomAction : Nat) : Option Nat :=
  if r < epsilon then some randomAction
  else
    match net with
    | none => none
    | some q => some (argmaxIdx (q state))

/-- **C9**: with `epsilon = 1.0`, every draw `r < 1` of `np.random.random()`
takes the random branch: the chosen action is the sampled random action, and
the result does not depend on `net` at all — in particular the warmup calls
with `net = None` never dereference the network, and the greedy branch is
unreachable during warmup. -/
theorem c9_warmup_never_evaluates_net (S : Type)
    (net : Option (S → List ℚ)) (state : S) (r : ℚ) (hr : r < 1)
    (randomAction : Nat) :
    playStepAction net state 1 r randomAction = some randomAction ∧
    playStepAction net state 1 r randomAction
      = playStepAction none state 1 r randomAction := by
  simp [playStepAction, hr]

/-- Witness for C9 at `r = 1/2`, `net = None`. -/
theorem c9_warmup_never_evaluates_net_witness :
    playStepAction (none : Option (Unit → List ℚ)) () 1 (1 / 2) 3
        = some 3 ∧
    playStepAction (none : Option (Unit → List ℚ)) () 1 (1 / 2) 3
      = playStepAction none () 1 (1 / 2) 3 :=
  c9_warmup_never_evaluates_net Unit none () (1 / 2) (by norm_num) 3

/-! ## ImageWrapper and BufferWrapper -/

/-- `ImageWrapper.X_OFS = 20`. -/
def X_OFS : Nat := 20

/-- A preprocessed frame: an 84×84 matrix of rationals (rows of pixels). -/
abbrev Frame : Type := List (List ℚ)

/-- A raw image as it comes out of the external `imresize(obs, (110, 84))`
call: rows of pixels, each pixel a list of channel values. -/
abbrev RawImage : Type := List (List (List ℚ))

/-- `obs` has 110 rows of 84 pixels. -/
def WfRaw (obs : RawImage) : Prop :=
  obs.length = 110 ∧ ∀ row ∈ obs, row.length = 84

/-- An 84×84 frame. -/
def WfFrame (f : Frame) : Prop :=
  f.length = 84 ∧ ∀ row ∈ f, row.length = 84

/-- `ImageWrapper._observation` after the external `imresize` call, whose
110×84 output is this function's input: channel mean
(`obs.mean(axis=-1, keepdims=True)`), vertical crop
`obs[X_OFS : X_OFS + 84]`, division by 255.  The `np.moveaxis(obs, 2, 0)`
that shapes the result as `(1, 84, 84)` is absorbed into returning the single
84×84 channel — exactly what broadcasting writes into one stacker slot. -/
def imageObservation (obs : RawImage) : Frame :=
  let meaned := obs.map (fun row => row.map (fun px =>
    px.sum / (px.length : ℚ)))
  let cropped := (meaned.drop X_OFS).take 84
  cropped.map (fun row => row.map (fun v => v / 255))

/-- The all-zero 84×84 frame: one slot of
`np.zeros_like(self.observation_space.low)`. -/
def zeroFrame : Frame := List.replicate 84 (List.replicate 84 0)

/-- `BufferWrapper._observation`: `self.buffer[:-1] = self.buffer[1:]` then
`self.buffer[-1] = observation` — shift every stored frame one slot older and
write the new frame into the most recent slot. -/
def bufferObservation (buffer : List Frame) (observation : Frame) :
    List Frame :=
  buffer.drop 1 ++ [observation]

/-- `BufferWrapper._reset`: zero-fill the 4-deep buffer
(`self.buffer = np.zeros_like(self.observation_space.low)`), then push the
episode's first observation through `_observation`. -/
def bufferReset (firstObs : Frame) : List Frame :=
  bufferObservation (List.replicate 4 zeroFrame) firstObs

/-- An episode as the wrappers see it: reset on the first raw image, then one
`_observation` per step. -/
def stackerRun (first : RawImage) (steps : List RawImage) : List Frame :=
  (steps.map imageObservation).foldl bufferObservation
    (bufferReset (imageObservation first))

theorem imageObservation_wf (obs : RawImage) (h : WfRaw obs) :
    WfFrame (imageObservation obs) := by
  obtain ⟨hlen, hrow⟩ := h
  constructor
  · simp [imageObservation, hlen, X_OFS]
  · intro row hr
    simp only [imageObservation, List.mem_map] at hr
    obtain ⟨r, hr, rfl⟩ := hr
    have hr' : r ∈ obs.map (fun row => row.map (fun px =>
        px.sum / (px.length : ℚ))) :=
      ((List.take_sublist _ _).trans (List.drop_sublist _ _)).mem hr
    obtain ⟨r0, hr0, rfl⟩ := List.mem_map.mp hr'
    simp [hrow r0 hr0]

theorem zeroFrame_wf : WfFrame zeroFrame := by
  refine ⟨by simp [zeroFrame], ?_⟩
  intro row h
  rw [List.eq_of_mem_replicate h]
  simp

theorem stackerFold_wf (fs : List Frame) : ∀ start : List Frame,
    start.length = 4 → (∀ f ∈ start, WfFrame f) → (∀ f ∈ fs, WfFrame f) →
    (fs.foldl bufferObservation start).length = 4 ∧
    ∀ f ∈ fs.foldl bufferObservation start, WfFrame f := by
  induction fs with
  | nil => exact fun _ hlen hwf _ => ⟨hlen, hwf⟩
  | cons g t ih =>
      intro start hlen hwf hfs
      simp only [List.foldl_cons]
      refine ih (bufferObservation start g) ?_ ?_
        (fun f hf => hfs f (by simp [hf]))
      · simp only [bufferObservation, List.length_append, List.length_drop,
          List.length_cons, List.length_nil]
        omega
      · intro f hf
        simp only [bufferObservation, List.mem_append,
          List.mem_singleton] at hf
        rcases hf with hf | rfl
        · exact hwf f ((List.drop_sublist _ _).mem hf)
        · exact hfs _ (by simp)

/-- **C7**: the frame stacker's output always consists of exactly 4 frames of
shape 84×84 — after reset and after every further step of an episode, for
every episode; on reset the 4-deep buffer is zero-filled (so the returned
stack is three zero frames followed by the first observation); and each step
shifts the stored frames one position older and writes the new preprocessed
frame into the most recent slot. -/
theorem c7_frame_stacker (first : RawImage) (steps : List RawImage)
    (buffer : List Frame) (obs : Frame)
    (hfirst : WfRaw first) (hsteps : ∀ s ∈ steps, WfRaw s)
    (hbuf : buffer.length = 4) :
    (stackerRun first steps).length = 4 ∧
    (∀ f ∈ stackerRun first steps, WfFrame f) ∧
    bufferReset (imageObservation first)
      = List.replicate 3 zeroFrame ++ [imageObservation first] ∧
    (bufferObservation buffer obs).length = 4 ∧
    (bufferObservation buffer obs).getD 3 zeroFrame = obs ∧
    (∀ i, i < 3 → (bufferObservation buffer obs).getD i zeroFrame
      = buffer.getD (i + 1) zeroFrame) := by
  have hrun := stackerFold_wf (steps.map imageObservation)
    (bufferReset (imageObservation first))
    (by simp [bufferReset, bufferObservation])
    (by
      intro f hf
      simp only [bufferReset, bufferObservation, List.mem_append,
        List.mem_singleton] at hf
      rcases hf with hf | rfl
      · have hz : f ∈ List.replicate 4 zeroFrame :=
          (List.drop_sublist _ _).mem hf
        rw [List.eq_of_mem_replicate hz]
        exact zeroFrame_wf
      · exact imageObservation_wf first hfirst)
    (by
      intro f hf
      obtain ⟨s, hs, rfl⟩ := List.mem_map.mp hf
      exact imageObservation_wf s (hsteps s hs))
  obtain ⟨a, b, c, d, hb4⟩ : ∃ a b c d, buffer = [a, b, c, d] := by
    match buffer, hbuf with
    | [a, b, c, d], _ => exact ⟨a, b, c, d, rfl⟩
  subst hb4
  refine ⟨hrun.1, hrun.2, rfl, rfl, rfl, ?_⟩
  intro i hi
  interval_cases i <;> rfl

/-- Witness for C7 on all-zero inputs. -/
theorem c7_frame_stacker_witness :
    (stackerRun (List.replicate 110 (List.replicate 84 [0, 0, 0]))
        [List.replicate 110 (List.replicate 84 [0, 0, 0])]).length = 4 ∧
    (∀ f ∈ stackerRun (List.replicate 110 (List.replicate 84 [0, 0, 0]))
        [List.replicate 110 (List.replicate 84 [0, 0, 0])], WfFrame f) ∧
    bufferReset (imageObservation
        (List.replicate 110 (List.replicate 84 [0, 0, 0])))
      = List.replicate 3 zeroFrame ++
          [imageObservation
            (List.replicate 110 (List.replicate 84 [0, 0, 0]))] ∧
    (bufferObservation (List.replicate 4 zeroFrame) zeroFrame).length = 4 ∧
    (bufferObservation (List.replicate 4 zeroFrame) zeroFrame).getD 3
        zeroFrame = zeroFrame ∧
    (∀ i, i < 3 →
      (bufferObservation (List.replicate 4 zeroFrame) zeroFrame).getD i
          zeroFrame
        = (List.replicate 4 zeroFrame).getD (i + 1) zeroFrame) :=
  c7_frame_stacker _ _ _ zeroFrame
    ⟨by simp, fun row h => by rw [List.eq_of_mem_replicate h]; simp⟩
    (fun s hs => by
      rw [List.mem_singleton.mp hs]
      exact ⟨by simp, fun row h => by rw [List.eq_of_mem_replicate h]; simp⟩)
    (by simp)

/-! ## Snapshot copies in play_step (heap model)

`BufferWrapper._observation` mutates `self.buffer` in place and returns the
same underlying array on every step, so `env.step(...)` keeps handing the
agent one shared array.  `Agent.play_step` calls `.copy()` on it
(`new_state = new_state.copy()`, and `Agent._reset` does
`self.state = env.reset().copy()`) before storing anything into an
`Experience`.  We model the heap explicitly: cell 0 is the environment's
shared frame-stack buffer, every `.copy()` allocates a fresh cell, and
references (cell indices) are what `self.state` and the `Experience` fields
hold. -/

/-- One appended experience as the heap sees it: the references stored in its
`state` / `new_state` fields plus the values those cells held at append
time. -/
structure StoredExp (V : Type) where
  sref : Nat
  sval : V
  nref : Nat
  nval : V
  deriving Repr, DecidableEq

/-- The agent+environment heap: `store` is the heap (indices are
references), cell 0 the in-place-mutated environment buffer, `stateRef` the
reference held by `self.state`, `exps` the references (with their
append-time values) stored in the replay buffer's experiences so far. -/
structure AgentHeap (V : Type) where
  store : List V
  stateRef : Nat
  exps : List (StoredExp V)
  deriving Repr, DecidableEq

/-- `Agent._reset` at construction: `env.reset()` fills cell 0 and returns
it; `self.state = env.reset().copy()` allocates snapshot cell 1. -/
def AgentHeap.init (v0 : V) : AgentHeap V := ⟨[v0, v0], 1, []⟩

/-- One `play_step` as it touches the heap: `env.step` mutates cell 0 in
place to the new stacked observation `newVal` and returns cell 0;
`new_state = new_state.copy()` allocates a fresh snapshot cell; the appended
`Experience(self.state, ..., new_state)` stores the old `self.state`
reference and the fresh copy's reference; finally `self.state = new_state`. -/
def AgentHeap.step (dflt : V) (h : AgentHeap V) (newVal : V) : AgentHeap V :=
  let store1 := h.store.set 0 newVal
  let nref := store1.length
  let store2 := store1 ++ [newVal]
  { store := store2,
    stateRef := nref,
    exps := h.exps ++
      [⟨h.stateRef, store2.getD h.stateRef dflt, nref,
        store2.getD nref dflt⟩] }

/-- Heap sanity invariant: the agent's state and every stored experience
reference a copy cell (index ≥ 1, never the shared cell 0), in bounds, and
each stored cell still holds its append-time value. -/
def AgentHeap.Inv (dflt : V) (h : AgentHeap V) : Prop :=
  1 ≤ h.stateRef ∧ h.stateRef < h.store.length ∧
    ∀ e ∈ h.exps,
      1 ≤ e.sref ∧ e.sref < h.store.length ∧
        h.store.getD e.sref dflt = e.sval ∧
      1 ≤ e.nref ∧ e.nref < h.store.length ∧
        h.store.getD e.nref dflt = e.nval

theorem getD_step_stable (store : List V) (v dflt : V) (r : Nat)
    (h1 : 1 ≤ r) (h2 : r < store.length) :
    ((store.set 0 v) ++ [v]).getD r dflt = store.getD r dflt := by
  rw [List.getD_append _ _ _ _ (by rw [List.length_set]; exact h2)]
  rw [List.getD_eq_getElem?_getD, List.getD_eq_getElem?_getD,
    List.getElem?_set_ne (by omega)]

theorem AgentHeap.step_inv (dflt : V) (h : AgentHeap V) (newVal : V)
    (hinv : h.Inv dflt) : (h.step dflt newVal).Inv dflt := by
  obtain ⟨hs1, hs2, hexps⟩ := hinv
  refine ⟨?_, ?_, ?_⟩
  · simp only [AgentHeap.step, List.length_set]
    omega
  · simp only [AgentHeap.step, List.length_append, List.length_set,
      List.length_cons, List.length_nil]
    omega
  · intro e he
    simp only [AgentHeap.step, List.mem_append, List.mem_singleton] at he
    simp only [AgentHeap.step, List.length_append, List.length_set,
      List.length_cons, List.length_nil]
    rcases he with he | rfl
    · obtain ⟨a1, a2, a3, b1, b2, b3⟩ := hexps e he
      exact ⟨a1, by omega,
        by rw [getD_step_stable _ _ _ _ a1 a2]; exact a3,
        b1, by omega,
        by rw [getD_step_stable _ _ _ _ b1 b2]; exact b3⟩
    · dsimp only
      simp only [List.length_set, List.length_append, List.length_cons,
        List.length_nil]
      exact ⟨hs1, by omega, by trivial, by omega, by omega, by trivial⟩

theorem AgentHeap.run_inv (dflt : V) (vals : List V) :
    ∀ h : AgentHeap V, h.Inv dflt →
      (vals.foldl (AgentHeap.step dflt) h).Inv dflt := by
  induction vals with
  | nil => exact fun h hinv => hinv
  | cons v t ih =>
      intro h hinv
      exact ih _ (h.step_inv dflt v hinv)

/-- **C10**: every `Experience` appended to the replay buffer stores
snapshot copies — after any number of further steps (each of which mutates
the shared frame-stacking buffer, cell 0, in place), the cells referenced by
every previously appended experience's `state` and `new_state` fields still
hold exactly the values they held when the experience was appended. -/
theorem c10_snapshot_copies (V : Type) (dflt v0 : V) (vals : List V) :
    ∀ e ∈ (vals.foldl (AgentHeap.step dflt) (AgentHeap.init v0)).exps,
      (vals.foldl (AgentHeap.step dflt) (AgentHeap.init v0)).store.getD
          e.sref dflt = e.sval ∧
      (vals.foldl (AgentHeap.step dflt) (AgentHeap.init v0)).store.getD
          e.nref dflt = e.nval := by
  have hinv := AgentHeap.run_inv dflt vals (AgentHeap.init v0)
    ⟨le_rfl, Nat.one_lt_two, fun e he => absurd he (List.not_mem_nil e)⟩
  intro e he
  obtain ⟨_, _, hx⟩ := hinv
  obtain ⟨_, _, h3, _, _, h6⟩ := hx e he
  exact ⟨h3, h6⟩

/-- Witness for C10: two steps writing `1` then `2` through the shared cell;
the first experience's snapshots still read back `0` and `1` at the end. -/
theorem c10_snapshot_copies_witness :
    (([1, 2] : List Nat).foldl (AgentHeap.step 7)
        (AgentHeap.init 0)).store.getD 1 7 = 0 ∧
    (([1, 2] : List Nat).foldl (AgentHeap.step 7)
        (AgentHeap.init 0)).store.getD 2 7 = 1 :=
  c10_snapshot_copies Nat 7 0 [1, 2] ⟨1, 0, 2, 1⟩ (by decide)
